import Mathlib

/-!
Shallow embedding of `vsdown` (src/src/checker.rs).

The tool checks, installs, and removes a Visual Studio Code release.
This file embeds the checker module's functions over an explicit
filesystem state and settles the frozen claims about them.

Modelling conventions:

* File contents and version strings are byte lists (`List Nat`).
  Rust `String` values are their UTF-8 bytes; for the ASCII literals
  appearing in the program, `strBytes` produces exactly those bytes.
  Rust's `str::replace('\n',"")` / `replace(' ',"")` removes the chars
  `'\n'` and `' '`; on valid UTF-8, bytes `10` and `32` occur exactly at
  those chars, so byte-level filtering is the same operation.
* The filesystem is a triple of association lists: regular files
  (path to bytes), directories (paths), and symbolic links (path to
  target).  Paths are plain strings; `tar` refuses entries escaping the
  unpack directory, so string concatenation models path joining.
* I/O failures that the program's control flow actually branches on are
  modelled (missing file, empty file, invalid UTF-8, existence checks,
  `remove_file` on a directory, `rename` with a missing source,
  `symlink` onto an existing path).  Environmental failures that only
  propagate (permissions, disk full, network transport errors) are not:
  reads and writes to paths the model can resolve succeed, and the
  remote endpoints are total oracles passed as parameters.
* `Path::exists` is modelled as presence of any node (file, directory,
  or link) at the path.  The only link the program creates points into
  the freshly installed tree, so following links is not modelled.
* The five `include_bytes!` desktop assets live under `res/`, outside
  the sources; their bytes are opaque build-time data, so they are a
  parameter (`Assets`) of the functions that use them.
-/

namespace Vsdown

/-! ## Association-list helpers (the filesystem maps) -/

def alook {β : Type} : List (String × β) → String → Option β
  | [], _ => none
  | kv :: t, p => if kv.1 = p then some kv.2 else alook t p

def aerase {β : Type} : List (String × β) → String → List (String × β)
  | [], _ => []
  | kv :: t, p => if kv.1 = p then aerase t p else kv :: aerase t p

def dcontains : List String → String → Bool
  | [], _ => false
  | d :: t, p => if d = p then true else dcontains t p

def keyFilter {β : Type} (keep : String → Bool) (l : List (String × β)) :
    List (String × β) :=
  l.filter (fun kv => keep kv.1)

/-! ## Bytes and strings -/

/-- UTF-8 bytes of an ASCII string literal (all literals in the program
are ASCII, where code points and bytes coincide). -/
def strBytes (s : String) : List Nat := s.data.map Char.toNat

/-- `.replace('\n', "").replace(' ', "")` from `get_current_version`:
remove every newline byte, then every space byte. -/
def stripWs (b : List Nat) : List Nat :=
  (b.filter (fun c => c ≠ 10)).filter (fun c => c ≠ 32)

/-- The UTF-8 acceptor run by Rust's `str::from_utf8` (RFC 3629: no
overlong forms, no surrogates, max U+10FFFF), written as the standard
byte-level automaton.  The first argument is the number of continuation
bytes still expected; the next two are the admissible range for the
next byte (a lead byte constrains its first continuation byte, which
rules overlong and out-of-range forms out; later continuation bytes
are in `[128, 191]`). -/
def utf8ValidAux : Nat → Nat → Nat → List Nat → Bool
  | 0, _, _, [] => true
  | _ + 1, _, _, [] => false
  | 0, _, _, b :: t =>
    if b ≤ 127 then utf8ValidAux 0 0 0 t
    else if 194 ≤ b && b ≤ 223 then utf8ValidAux 1 128 191 t
    else if b = 224 then utf8ValidAux 2 160 191 t
    else if 225 ≤ b && b ≤ 236 then utf8ValidAux 2 128 191 t
    else if b = 237 then utf8ValidAux 2 128 159 t
    else if 238 ≤ b && b ≤ 239 then utf8ValidAux 2 128 191 t
    else if b = 240 then utf8ValidAux 3 144 191 t
    else if 241 ≤ b && b ≤ 243 then utf8ValidAux 3 128 191 t
    else if b = 244 then utf8ValidAux 3 128 143 t
    else false
  | n + 1, lo, hi, b :: t =>
    if lo ≤ b && b ≤ hi then utf8ValidAux n 128 191 t else false

/-- Validity of a byte sequence as UTF-8 (`str::from_utf8` succeeds). -/
def utf8Valid (l : List Nat) : Bool := utf8ValidAux 0 0 0 l

/-! ## Filesystem state and primitive operations -/

structure FS where
  files : List (String × List Nat)
  dirs : List String
  links : List (String × String)
deriving DecidableEq

/-- `Path::exists`: some node is present at the path. -/
def fsExists (fs : FS) (p : String) : Bool :=
  (alook fs.files p).isSome || (dcontains fs.dirs p || (alook fs.links p).isSome)

/-- `File::create` followed by `write_all`: create or truncate, then
write the full content. -/
def fsWriteFile (fs : FS) (p : String) (c : List Nat) : FS :=
  { fs with files := (p, c) :: aerase fs.files p }

/-- `std::fs::create_dir_all`. -/
def fsCreateDirAll (fs : FS) (p : String) : FS :=
  if dcontains fs.dirs p then fs else { fs with dirs := p :: fs.dirs }

/-- `std::fs::remove_file`: fails on a directory, removes a regular
file or a symlink. -/
def fsRemoveFile (fs : FS) (p : String) : Except String FS :=
  if dcontains fs.dirs p then Except.error "Is a directory"
  else if (alook fs.files p).isSome || (alook fs.links p).isSome then
    Except.ok { fs with files := aerase fs.files p, links := aerase fs.links p }
  else Except.error "No such file or directory"

def lPre : List Char → List Char → Bool
  | [], _ => true
  | _ :: _, [] => false
  | a :: as, b :: bs => if a = b then lPre as bs else false

/-- `q` starts with `p` (on the underlying character lists). -/
def strStarts (p q : String) : Bool := lPre p.data q.data

/-- `q` is `p` itself or lies strictly below the directory `p`. -/
def underOrEq (p q : String) : Bool :=
  if q = p then true else strStarts (p ++ "/") q

/-- `std::fs::remove_dir_all`: fails unless the path is a directory,
then removes the whole subtree. -/
def fsRemoveDirAll (fs : FS) (p : String) : Except String FS :=
  if dcontains fs.dirs p then
    Except.ok
      { files := keyFilter (fun k => ! underOrEq p k) fs.files,
        dirs := fs.dirs.filter (fun d => ! underOrEq p d),
        links := keyFilter (fun k => ! underOrEq p k) fs.links }
  else Except.error "Not a directory"

/-- Key relocation performed by `std::fs::rename` on a directory. -/
def renPath (src dst k : String) : String :=
  if k = src then dst
  else if strStarts (src ++ "/") k then dst ++ String.drop k (String.length src)
  else k

/-- `std::fs::rename` of a directory: the source must exist; the
destination must be free (the program has just removed it). -/
def fsRename (fs : FS) (src dst : String) : Except String FS :=
  if dcontains fs.dirs src && ! fsExists fs dst then
    Except.ok
      { files := fs.files.map (fun kv => (renPath src dst kv.1, kv.2)),
        dirs := fs.dirs.map (renPath src dst),
        links := fs.links.map (fun kv => (renPath src dst kv.1, kv.2)) }
  else Except.error "rename failed"

/-- `std::os::unix::fs::symlink`: fails if anything is already at the
link path. -/
def symlinkCreate (fs : FS) (p t : String) : Except String FS :=
  if fsExists fs p then
    Except.error "Could not create symlink for the vscode executable! File exists"
  else Except.ok { fs with links := (p, t) :: fs.links }

/-! ## Constants from checker.rs -/

def CURRENT_VERSION_DIRECTORY : String := "/var/lib/vsdown/"

def CURRENT_VERSION_FILENAME : String := "current_version"

/-- `format!("{}{}", CURRENT_VERSION_DIRECTORY, CURRENT_VERSION_FILENAME)`. -/
def markerPath : String := CURRENT_VERSION_DIRECTORY ++ CURRENT_VERSION_FILENAME

def DOWNLOAD_VSCODE_URL : String :=
  "https://code.visualstudio.com/sha/download?build=stable&os="

def VSCODE_PATH : String := "/usr/lib"

/-- The five `include_bytes!` assets (opaque build-time data). -/
structure Assets where
  codeAppdataXml : List Nat
  codeDesktop : List Nat
  codeUrlHandlerDesktop : List Nat
  codeWorkspaceXml : List Nat
  vscodeIcon : List Nat

/-- `PATH_KV`: manifest destination paths with their asset bytes. -/
def PATH_KV (A : Assets) : List (String × List Nat) :=
  [("/usr/share/appdata/code.appdata.xml", A.codeAppdataXml),
   ("/usr/share/applications/code.desktop", A.codeDesktop),
   ("/usr/share/applications/code-url-handler.desktop", A.codeUrlHandlerDesktop),
   ("/usr/share/mine/packages/code-workspace.xml", A.codeWorkspaceXml),
   ("/usr/share/pixmaps/com.visualstudio.code.png", A.vscodeIcon)]

/-- The keys of `PATH_KV` (its values are never read by `remove_vscode`). -/
def MANIFEST_PATHS : List String :=
  ["/usr/share/appdata/code.appdata.xml",
   "/usr/share/applications/code.desktop",
   "/usr/share/applications/code-url-handler.desktop",
   "/usr/share/mine/packages/code-workspace.xml",
   "/usr/share/pixmaps/com.visualstudio.code.png"]

def DIRECTORY_PATH : List String :=
  ["/usr/share/appdata", "/usr/share/applications",
   "/usr/share/mine/packages", "/usr/share/pixmaps"]

/-- The sentinel `b"None"` written on first run. -/
def noneBytes : List Nat := strBytes "None"

/-! ## VersionOracle: get_current_version and update_checker -/

/-- `get_current_version`: open the marker file, read it fully, reject
an empty file, decode as UTF-8, and strip all newlines and spaces. -/
def get_current_version (fs : FS) : Except String (List Nat) :=
  match alook fs.files markerPath with
  | none => Except.error "No such file or directory"
  | some buf =>
    if buf = [] then
      Except.error "Failed to detect Visual Studio Code version for the current installation!"
    else if utf8Valid buf then Except.ok (stripWs buf)
    else Except.error "invalid utf-8 sequence"

/-- `update_checker`, given the `latest_version` bytes the remote
returned (`get_lastest_version` succeeded; its failures only
propagate).  A failing local read becomes the first-run path: create
the state directory, create the marker file with content `"None"`, and
use `"None"` as the current version.  The mismatch `bail!` carries the
current and latest version strings. -/
def update_checker (fs : FS) (latest : List Nat) :
    Except (List Nat × List Nat) Unit × FS :=
  match get_current_version fs with
  | Except.ok v =>
    (if v = latest then Except.ok () else Except.error (v, latest), fs)
  | Except.error _ =>
    let fs1 := fsWriteFile (fsCreateDirAll fs CURRENT_VERSION_DIRECTORY)
      markerPath noneBytes
    (if noneBytes = latest then Except.ok () else Except.error (noneBytes, latest),
     fs1)

/-! ## ReleaseInstaller: download, install, remove -/

/-- The download endpoint as an oracle from URL to response body. -/
structure Net where
  get : String → List Nat

/-- `download_vscode`, with the process architecture as a parameter
(`std::env::consts::ARCH`).  The second component records the URLs
actually requested, in order. -/
def download_vscode (archv : String) (net : Net) :
    Except String (List Nat × String) × List String :=
  if archv = "x86_64" then
    (Except.ok (net.get (DOWNLOAD_VSCODE_URL ++ "linux-x64"), "linux-x64"),
     [DOWNLOAD_VSCODE_URL ++ "linux-x64"])
  else if archv = "aarch64" then
    (Except.ok (net.get (DOWNLOAD_VSCODE_URL ++ "linux-arm64"), "linux-arm64"),
     [DOWNLOAD_VSCODE_URL ++ "linux-arm64"])
  else
    (Except.error "Unfortunately, Visual Studio Code does not support your device's architecture.",
     [])

/-- A decoded gzip-tar archive: entries relative to the unpack target. -/
structure Archive where
  afiles : List (String × List Nat)
  adirs : List String

/-- `tar::Archive::unpack(VSCODE_PATH)`: materialise every entry under
`/usr/lib` (tar rejects entries escaping the target directory). -/
def unpack (fs : FS) (a : Archive) : FS :=
  let fs1 := a.adirs.foldl (fun s d => fsCreateDirAll s (VSCODE_PATH ++ "/" ++ d)) fs
  a.afiles.foldl (fun s kv => fsWriteFile s (VSCODE_PATH ++ "/" ++ kv.1) kv.2) fs1

/-- `install_file_inner`: write the asset only if nothing exists at the
destination. -/
def install_file_inner (fs : FS) (p : String) (buf : List Nat) : FS :=
  if fsExists fs p then fs else fsWriteFile fs p buf

/-- `install_beyond`: symlink the binary, create the manifest
directories, then install each manifest file.  The state is returned
alongside the result (a failure leaves it as it was at the failure
point). -/
def install_beyond (A : Assets) (fs : FS) : Except String Unit × FS :=
  match symlinkCreate fs "/usr/bin/vscode" "/usr/lib/vscode/code" with
  | Except.error e => (Except.error e, fs)
  | Except.ok fs1 =>
    let fs2 := DIRECTORY_PATH.foldl fsCreateDirAll fs1
    let fs3 := (PATH_KV A).foldl (fun s kv => install_file_inner s kv.1 kv.2) fs2
    (Except.ok (), fs3)

/-- `remove_inner`: delete the path only when something exists there. -/
def remove_inner (fs : FS) (p : String) : Except String FS :=
  if fsExists fs p then fsRemoveFile fs p else Except.ok fs

/-- The `for (i, _) in PATH_KV { remove_inner(i)?; }` loop. -/
def removeManifest : List String → FS → Except String FS
  | [], fs => Except.ok fs
  | p :: t, fs =>
    match remove_inner fs p with
    | Except.error e => Except.error e
    | Except.ok fs2 => removeManifest t fs2

/-- `remove_vscode`: manifest files, the install directory, the binary
symlink (via `read_link`), the binary path again, then the version
marker. -/
def remove_vscode (fs : FS) : Except String FS :=
  match removeManifest MANIFEST_PATHS fs with
  | Except.error e => Except.error e
  | Except.ok fs1 =>
    match (if fsExists fs1 "/usr/lib/vscode" then fsRemoveDirAll fs1 "/usr/lib/vscode"
           else Except.ok fs1) with
    | Except.error e => Except.error e
    | Except.ok fs2 =>
      match (if (alook fs2.links "/usr/bin/vscode").isSome then
               fsRemoveFile fs2 "/usr/bin/vscode"
             else Except.ok fs2) with
      | Except.error e => Except.error e
      | Except.ok fs3 =>
        match remove_inner fs3 "/usr/bin/vscode" with
        | Except.error e => Except.error e
        | Except.ok fs4 =>
          match remove_inner fs4 markerPath with
          | Except.error e => Except.error e
          | Except.ok fs5 => Except.ok fs5

/-- The marker write at the end of `install`: `OpenOptions` with
read/write/create (no truncate), `seek(Start(0))`, `write_all`.  On an
existing file, bytes past the new content survive. -/
def writeAt0NoTrunc (old : Option (List Nat)) (new : List Nat) : List Nat :=
  match old with
  | none => new
  | some o => new ++ o.drop new.length

/-- `install`: unpack the archive, run the full removal pass, rename
the arch-suffixed tree into place, run `install_beyond`, then re-fetch
the latest version (`latest`, same oracle as the checker) and write it
through the non-truncating handle. -/
def install (A : Assets) (fs : FS) (a : Archive) (archTag : String)
    (latest : List Nat) : Except String FS :=
  match remove_vscode (unpack fs a) with
  | Except.error e => Except.error e
  | Except.ok fs2 =>
    match fsRename fs2 ("/usr/lib/VSCode-" ++ archTag) "/usr/lib/vscode" with
    | Except.error e => Except.error e
    | Except.ok fs3 =>
      match install_beyond A fs3 with
      | (Except.error e, _) => Except.error e
      | (Except.ok _, fs4) =>
        Except.ok
          (fsWriteFile fs4 markerPath
            (writeAt0NoTrunc (alook fs4.files markerPath) latest))

/-! ## Concrete sample states used by witnesses and counterexamples -/

def fs0 : FS := ⟨[], [], []⟩

def arch0 : Archive := ⟨[], ["VSCode-linux-x64"]⟩

def A0 : Assets :=
  ⟨strBytes "xml", strBytes "desktop", strBytes "handler",
   strBytes "workspace", strBytes "icon"⟩

def v123 : List Nat := strBytes "1.2.3"

/-- Marker recorded as `1.2.3` (with a trailing newline). -/
def fsMark : FS := ⟨[(markerPath, strBytes "1.2.3" ++ [10])], [], []⟩

/-- One manifest destination already occupied. -/
def fsDesk : FS :=
  ⟨[("/usr/share/applications/code.desktop", strBytes "keep")], [], []⟩

/-- Marker holding bytes that are not valid UTF-8. -/
def fsBad : FS := ⟨[(markerPath, [255])], [], []⟩

/-- Marker holding only whitespace bytes. -/
def fsWs : FS := ⟨[(markerPath, [10, 32, 10])], [], []⟩

/-- Marker holding a version string longer than the next one. -/
def fsLong : FS := ⟨[(markerPath, strBytes "9.9.9.9.9")], [], []⟩

def net0 : Net := ⟨fun _ => strBytes "body"⟩

/-- A directory occupying a manifest file destination. -/
def fsDir : FS := ⟨[], ["/usr/share/appdata/code.appdata.xml"], []⟩

/-- All paths `remove_vscode` guards, free: nothing installed. -/
def cleanB (fs : FS) : Bool :=
  (MANIFEST_PATHS.all (fun p => ! fsExists fs p))
    && (! fsExists fs "/usr/lib/vscode")
    && (! fsExists fs "/usr/bin/vscode")
    && (! fsExists fs markerPath)

/-- No node of any kind at the path. -/
def absentF (fs : FS) (p : String) : Prop :=
  alook fs.files p = none ∧ alook fs.links p = none ∧ dcontains fs.dirs p = false

/-! ## Helper lemmas: association lists -/

theorem isSome_false {α : Type} (o : Option α) : o.isSome = false ↔ o = none := by
  cases o <;> simp

theorem alook_aerase_self {β : Type} (l : List (String × β)) (p : String) :
    alook (aerase l p) p = none := by
  induction l with
  | nil => rfl
  | cons kv t ih => by_cases h : kv.1 = p <;> simp [aerase, alook, h, ih]

theorem alook_aerase_ne {β : Type} (l : List (String × β)) (p q : String)
    (h : q ≠ p) : alook (aerase l p) q = alook l q := by
  induction l with
  | nil => rfl
  | cons kv t ih =>
    by_cases hk : kv.1 = p
    · have hkq : kv.1 ≠ q := by rw [hk]; exact fun hq => h hq.symm
      rw [show aerase (kv :: t) p = aerase t p by simp [aerase, hk],
          show alook (kv :: t) q = alook t q by simp [alook, hkq], ih]
    · rw [show aerase (kv :: t) p = kv :: aerase t p by simp [aerase, hk]]
      by_cases hq : kv.1 = q
      · simp [alook, hq]
      · simp [alook, hq, ih]

theorem alook_aerase_none {β : Type} (l : List (String × β)) (p q : String)
    (h : alook l q = none) : alook (aerase l p) q = none := by
  by_cases hq : q = p
  · rw [hq]; exact alook_aerase_self l p
  · rw [alook_aerase_ne l p q hq]; exact h

theorem aerase_of_alook_none {β : Type} (l : List (String × β)) (p : String)
    (h : alook l p = none) : aerase l p = l := by
  induction l with
  | nil => rfl
  | cons kv t ih =>
    by_cases hk : kv.1 = p
    · simp [alook, hk] at h
    · simp [alook, hk] at h
      simp [aerase, hk, ih h]

theorem alook_eq_none_iff {β : Type} (l : List (String × β)) (q : String) :
    alook l q = none ↔ ∀ kv ∈ l, kv.1 ≠ q := by
  induction l with
  | nil => simp [alook]
  | cons kv t ih =>
    by_cases hk : kv.1 = q <;> simp [alook, hk, ih]

theorem dcontains_eq_false_iff (l : List String) (q : String) :
    dcontains l q = false ↔ ∀ d ∈ l, d ≠ q := by
  induction l with
  | nil => simp [dcontains]
  | cons d t ih =>
    by_cases hd : d = q <;> simp [dcontains, hd, ih]

theorem alook_filter_none {β : Type} (l : List (String × β))
    (f : String × β → Bool) (q : String) (h : alook l q = none) :
    alook (l.filter f) q = none := by
  rw [alook_eq_none_iff] at h ⊢
  intro kv hkv
  exact h kv (List.mem_of_mem_filter hkv)

theorem alook_keyFilter_false {β : Type} (l : List (String × β))
    (keep : String → Bool) (q : String) (h : keep q = false) :
    alook (keyFilter keep l) q = none := by
  rw [alook_eq_none_iff]
  intro kv hkv
  have hkeep := (List.mem_filter.mp hkv).2
  intro hq
  rw [hq, h] at hkeep
  exact Bool.false_ne_true hkeep

theorem dcontains_filter_none (l : List String) (f : String → Bool) (q : String)
    (h : dcontains l q = false) : dcontains (l.filter f) q = false := by
  rw [dcontains_eq_false_iff] at h ⊢
  intro d hd
  exact h d (List.mem_of_mem_filter hd)

theorem dcontains_filter_false (l : List String) (f : String → Bool) (q : String)
    (h : f q = false) : dcontains (l.filter f) q = false := by
  rw [dcontains_eq_false_iff]
  intro d hd hq
  have hf := (List.mem_filter.mp hd).2
  rw [hq, h] at hf
  exact Bool.false_ne_true hf

theorem alook_map_ren_none {β : Type} (l : List (String × β))
    (ren : String → String) (q : String) (h : alook l q = none)
    (hren : ∀ k, k ≠ q → ren k ≠ q) :
    alook (l.map (fun kv => (ren kv.1, kv.2))) q = none := by
  rw [alook_eq_none_iff] at h ⊢
  intro kv hkv
  obtain ⟨kv0, hkv0, hmap⟩ := List.mem_map.mp hkv
  rw [← hmap]
  exact hren kv0.1 (h kv0 hkv0)

theorem dcontains_map_ren_none (l : List String) (ren : String → String)
    (q : String) (h : dcontains l q = false)
    (hren : ∀ k, k ≠ q → ren k ≠ q) :
    dcontains (l.map ren) q = false := by
  rw [dcontains_eq_false_iff] at h ⊢
  intro d hd
  obtain ⟨d0, hd0, hmap⟩ := List.mem_map.mp hd
  rw [← hmap]
  exact hren d0 (h d0 hd0)

/-! ## Helper lemmas: strings -/

theorem data_app (a b : String) : (a ++ b).data = a.data ++ b.data := rfl

theorem app_ne_of_ne_at (a x t : String) (i : Nat) (hi : i < a.data.length)
    (hne : a.data[i]? ≠ t.data[i]?) : ¬ (a ++ x = t) := by
  intro h
  apply hne
  have hd : a.data ++ x.data = t.data := by rw [← data_app, h]
  rw [← hd]
  exact (List.getElem?_append_left hi).symm

theorem renPath_ne (src dst q k : String) (hd : dst ≠ q)
    (ha : ∀ x : String, ¬ (dst ++ x = q)) (hk : k ≠ q) :
    renPath src dst k ≠ q := by
  unfold renPath
  by_cases h1 : k = src
  · simp [h1, hd]
  · by_cases h2 : strStarts (src ++ "/") k = true
    · simp [h1, h2]; exact ha _
    · simp [h1, h2, hk]

/-! ## Helper lemmas: filesystem primitives -/

theorem fsExists_false_iff (fs : FS) (p : String) :
    fsExists fs p = false ↔ absentF fs p := by
  unfold fsExists absentF
  rw [Bool.or_eq_false_iff, Bool.or_eq_false_iff, isSome_false, isSome_false]
  tauto

theorem fsWriteFile_alook_self (fs : FS) (p : String) (c : List Nat) :
    alook (fsWriteFile fs p c).files p = some c := by
  simp [fsWriteFile, alook]

theorem fsWriteFile_alook_ne (fs : FS) (p q : String) (c : List Nat)
    (h : q ≠ p) : alook (fsWriteFile fs p c).files q = alook fs.files q := by
  have hp : p ≠ q := fun hq => h hq.symm
  simp [fsWriteFile, alook, hp]
  exact alook_aerase_ne fs.files p q h

theorem fsWriteFile_dirs (fs : FS) (p : String) (c : List Nat) :
    (fsWriteFile fs p c).dirs = fs.dirs := rfl

theorem fsWriteFile_links (fs : FS) (p : String) (c : List Nat) :
    (fsWriteFile fs p c).links = fs.links := rfl

theorem fsCreateDirAll_files (fs : FS) (d : String) :
    (fsCreateDirAll fs d).files = fs.files := by
  unfold fsCreateDirAll; split <;> rfl

theorem fsCreateDirAll_links (fs : FS) (d : String) :
    (fsCreateDirAll fs d).links = fs.links := by
  unfold fsCreateDirAll; split <;> rfl

theorem dcontains_fsCreateDirAll_ne (fs : FS) (d q : String) (h : q ≠ d) :
    dcontains (fsCreateDirAll fs d).dirs q = dcontains fs.dirs q := by
  unfold fsCreateDirAll
  split
  · rfl
  · have hd : d ≠ q := fun hq => h hq.symm
    simp [dcontains, hd]

theorem dcontains_fsCreateDirAll_self (fs : FS) (d : String) :
    dcontains (fsCreateDirAll fs d).dirs d = true := by
  unfold fsCreateDirAll
  split
  · assumption
  · simp [dcontains]

theorem fsExists_write (fs : FS) (p : String) (c : List Nat) (q : String) :
    fsExists (fsWriteFile fs p c) q = (if q = p then true else fsExists fs q) := by
  by_cases h : q = p
  · rw [if_pos h, h]
    simp [fsExists, fsWriteFile_alook_self]
  · rw [if_neg h]
    simp only [fsExists, fsWriteFile_alook_ne fs p q c h, fsWriteFile_dirs,
      fsWriteFile_links]

theorem alook_keyFilter_none {β : Type} (l : List (String × β))
    (keep : String → Bool) (q : String) (h : alook l q = none) :
    alook (keyFilter keep l) q = none :=
  alook_filter_none l _ q h

/-! ## Helper lemmas: install_file_inner -/

theorem install_file_inner_links (fs : FS) (p : String) (b : List Nat) :
    (install_file_inner fs p b).links = fs.links := by
  unfold install_file_inner; split <;> rfl

theorem install_file_inner_dirs (fs : FS) (p : String) (b : List Nat) :
    (install_file_inner fs p b).dirs = fs.dirs := by
  unfold install_file_inner; split <;> rfl

theorem install_file_inner_alook_ne (fs : FS) (p q : String) (b : List Nat)
    (h : q ≠ p) :
    alook (install_file_inner fs p b).files q = alook fs.files q := by
  unfold install_file_inner
  split
  · rfl
  · exact fsWriteFile_alook_ne fs p q b h

theorem install_file_inner_self (fs : FS) (p : String) (b : List Nat)
    (h : fsExists fs p = false) :
    alook (install_file_inner fs p b).files p = some b := by
  simp [install_file_inner, h, fsWriteFile_alook_self]

theorem install_file_inner_of_exists (fs : FS) (p : String) (b : List Nat)
    (h : fsExists fs p = true) : install_file_inner fs p b = fs := by
  simp [install_file_inner, h]

theorem fsExists_install_file_inner_mono (fs : FS) (p : String) (b : List Nat)
    (q : String) (h : fsExists fs q = true) :
    fsExists (install_file_inner fs p b) q = true := by
  unfold install_file_inner
  split
  · exact h
  · rw [fsExists_write]
    by_cases hq : q = p <;> simp [hq, h]

/-! ## Helper lemmas: the removal pass -/

theorem fsRemoveFile_pres_absent (fs : FS) (p q : String) (g : FS)
    (h : fsRemoveFile fs p = Except.ok g) (hq : absentF fs q) : absentF g q := by
  unfold fsRemoveFile at h
  split at h
  · exact absurd h (by simp)
  · split at h
    · rw [Except.ok.injEq] at h
      subst h
      exact ⟨alook_aerase_none _ _ _ hq.1, alook_aerase_none _ _ _ hq.2.1, hq.2.2⟩
    · exact absurd h (by simp)

theorem remove_inner_pres_absent (fs : FS) (p q : String) (g : FS)
    (h : remove_inner fs p = Except.ok g) (hq : absentF fs q) : absentF g q := by
  unfold remove_inner at h
  split at h
  · exact fsRemoveFile_pres_absent fs p q g h hq
  · rw [Except.ok.injEq] at h; subst h; exact hq

theorem remove_inner_ok_absent (fs : FS) (p : String) (g : FS)
    (h : remove_inner fs p = Except.ok g) : absentF g p := by
  unfold remove_inner at h
  by_cases hex : fsExists fs p = true
  · rw [if_pos hex] at h
    unfold fsRemoveFile at h
    by_cases hd : dcontains fs.dirs p = true
    · rw [if_pos hd] at h; exact absurd h (by simp)
    · rw [if_neg hd] at h
      split at h
      · rw [Except.ok.injEq] at h
        subst h
        refine ⟨alook_aerase_self _ _, alook_aerase_self _ _, ?_⟩
        revert hd; cases dcontains fs.dirs p <;> simp
      · exact absurd h (by simp)
  · rw [if_neg hex] at h
    rw [Except.ok.injEq] at h
    subst h
    apply (fsExists_false_iff fs p).mp
    revert hex; cases fsExists fs p <;> simp

theorem remove_inner_of_absent (fs : FS) (p : String)
    (h : fsExists fs p = false) : remove_inner fs p = Except.ok fs := by
  simp [remove_inner, h]

theorem removeManifest_pres_absent (ps : List String) (fs g : FS) (q : String)
    (h : removeManifest ps fs = Except.ok g) (hq : absentF fs q) : absentF g q := by
  induction ps generalizing fs with
  | nil =>
    simp only [removeManifest, Except.ok.injEq] at h
    subst h; exact hq
  | cons p t ih =>
    simp only [removeManifest] at h
    cases hri : remove_inner fs p with
    | error e => rw [hri] at h; exact absurd h (by simp)
    | ok fs2 =>
      rw [hri] at h
      exact ih fs2 h (remove_inner_pres_absent fs p q fs2 hri hq)

theorem removeManifest_absent (ps : List String) (fs g : FS) (p : String)
    (h : removeManifest ps fs = Except.ok g) (hp : p ∈ ps) : absentF g p := by
  induction ps generalizing fs with
  | nil => cases hp
  | cons a t ih =>
    simp only [removeManifest] at h
    cases hri : remove_inner fs a with
    | error e => rw [hri] at h; exact absurd h (by simp)
    | ok fs2 =>
      rw [hri] at h
      cases hp with
      | head =>
        exact removeManifest_pres_absent t fs2 g p h
          (remove_inner_ok_absent fs p fs2 hri)
      | tail _ hmem => exact ih fs2 h hmem

theorem fsRemoveDirAll_pres_absent (fs : FS) (p q : String) (g : FS)
    (h : fsRemoveDirAll fs p = Except.ok g) (hq : absentF fs q) : absentF g q := by
  unfold fsRemoveDirAll at h
  split at h
  · rw [Except.ok.injEq] at h
    subst h
    refine ⟨?_, ?_, ?_⟩ <;> dsimp only
    · exact alook_keyFilter_none _ _ _ hq.1
    · exact alook_keyFilter_none _ _ _ hq.2.1
    · exact dcontains_filter_none _ _ _ hq.2.2
  · exact absurd h (by simp)

theorem fsRemoveDirAll_ok_absent (fs : FS) (p : String) (g : FS)
    (h : fsRemoveDirAll fs p = Except.ok g) : absentF g p := by
  unfold fsRemoveDirAll at h
  split at h
  · rw [Except.ok.injEq] at h
    subst h
    refine ⟨?_, ?_, ?_⟩ <;> dsimp only
    · exact alook_keyFilter_false _ _ _ (by simp [underOrEq])
    · exact alook_keyFilter_false _ _ _ (by simp [underOrEq])
    · exact dcontains_filter_false _ _ _ (by simp [underOrEq])
  · exact absurd h (by simp)

theorem dirStep_pres_absent (fs g : FS) (d q : String)
    (h : (if fsExists fs d then fsRemoveDirAll fs d else Except.ok fs) =
      Except.ok g) (hq : absentF fs q) : absentF g q := by
  split at h
  · exact fsRemoveDirAll_pres_absent fs d q g h hq
  · rw [Except.ok.injEq] at h; subst h; exact hq

theorem dirStep_ok_absent (fs g : FS) (d : String)
    (h : (if fsExists fs d then fsRemoveDirAll fs d else Except.ok fs) =
      Except.ok g) : absentF g d := by
  split at h
  · exact fsRemoveDirAll_ok_absent fs d g h
  case isFalse hex =>
    rw [Except.ok.injEq] at h
    subst h
    apply (fsExists_false_iff fs d).mp
    revert hex; cases fsExists fs d <;> simp

theorem linkStep_pres_absent (fs g : FS) (b q : String)
    (h : (if (alook fs.links b).isSome then fsRemoveFile fs b else Except.ok fs)
      = Except.ok g) (hq : absentF fs q) : absentF g q := by
  split at h
  · exact fsRemoveFile_pres_absent fs b q g h hq
  · rw [Except.ok.injEq] at h; subst h; exact hq

/-- After a successful `remove_vscode`, every path it guards is gone. -/
theorem remove_vscode_ok_post (fs g : FS) (h : remove_vscode fs = Except.ok g) :
    (∀ p ∈ MANIFEST_PATHS, absentF g p) ∧ absentF g "/usr/lib/vscode"
      ∧ absentF g "/usr/bin/vscode" ∧ absentF g markerPath := by
  unfold remove_vscode at h
  split at h
  · exact absurd h (by simp)
  rename_i fs1 h1
  split at h
  · exact absurd h (by simp)
  rename_i fs2 h2
  split at h
  · exact absurd h (by simp)
  rename_i fs3 h3
  split at h
  · exact absurd h (by simp)
  rename_i fs4 h4
  split at h
  · exact absurd h (by simp)
  rename_i fs5 h5
  rw [Except.ok.injEq] at h
  subst h
  refine ⟨?_, ?_, ?_, ?_⟩
  · intro p hp
    exact remove_inner_pres_absent _ _ _ _ h5
      (remove_inner_pres_absent _ _ _ _ h4
        (linkStep_pres_absent _ _ _ _ h3
          (dirStep_pres_absent _ _ _ _ h2
            (removeManifest_absent _ _ _ _ h1 hp))))
  · exact remove_inner_pres_absent _ _ _ _ h5
      (remove_inner_pres_absent _ _ _ _ h4
        (linkStep_pres_absent _ _ _ _ h3
          (dirStep_ok_absent _ _ _ h2)))
  · exact remove_inner_pres_absent _ _ _ _ h5
      (remove_inner_ok_absent _ _ _ h4)
  · exact remove_inner_ok_absent _ _ _ h5

/-- With nothing at any guarded path, `remove_vscode` is an identity. -/
theorem remove_vscode_of_clean (fs : FS) (h : cleanB fs = true) :
    remove_vscode fs = Except.ok fs := by
  have hall := h
  simp only [cleanB, MANIFEST_PATHS, List.all, Bool.and_eq_true,
    Bool.not_eq_true'] at hall
  obtain ⟨⟨⟨⟨h1, h2, h3, h4, h5, -⟩, hdir⟩, hbin⟩, hmark⟩ := hall
  have habsbin := (fsExists_false_iff fs "/usr/bin/vscode").mp hbin
  have hm : removeManifest MANIFEST_PATHS fs = Except.ok fs := by
    simp only [MANIFEST_PATHS, removeManifest, remove_inner_of_absent fs _ h1,
      remove_inner_of_absent fs _ h2, remove_inner_of_absent fs _ h3,
      remove_inner_of_absent fs _ h4, remove_inner_of_absent fs _ h5]
  unfold remove_vscode
  rw [hm]
  simp only [hdir, Bool.false_eq_true, if_false, habsbin.2.1, Option.isSome_none,
    remove_inner_of_absent fs _ hbin, remove_inner_of_absent fs _ hmark]

/-! ## Helper lemmas: install_beyond folds -/

theorem fsExists_cda_mono (fs : FS) (d q : String) (h : fsExists fs q = true) :
    fsExists (fsCreateDirAll fs d) q = true := by
  unfold fsCreateDirAll
  split
  · exact h
  · by_cases hq : d = q
    · simp [fsExists, dcontains, hq]
    · simp only [fsExists, dcontains] at h ⊢
      simp [hq, h]

theorem foldl_cda_files (ds : List String) (fs : FS) :
    (ds.foldl fsCreateDirAll fs).files = fs.files := by
  induction ds generalizing fs with
  | nil => rfl
  | cons d t ih => rw [List.foldl_cons, ih, fsCreateDirAll_files]

theorem foldl_cda_links (ds : List String) (fs : FS) :
    (ds.foldl fsCreateDirAll fs).links = fs.links := by
  induction ds generalizing fs with
  | nil => rfl
  | cons d t ih => rw [List.foldl_cons, ih, fsCreateDirAll_links]

theorem foldl_cda_exists_mono (ds : List String) (fs : FS) (q : String)
    (h : fsExists fs q = true) :
    fsExists (ds.foldl fsCreateDirAll fs) q = true := by
  induction ds generalizing fs with
  | nil => exact h
  | cons d t ih => rw [List.foldl_cons]; exact ih _ (fsExists_cda_mono fs d q h)

theorem foldl_ifi_links (l : List (String × List Nat)) (fs : FS) :
    ((l.foldl (fun s kv => install_file_inner s kv.1 kv.2) fs)).links
      = fs.links := by
  induction l generalizing fs with
  | nil => rfl
  | cons kv t ih => rw [List.foldl_cons, ih, install_file_inner_links]

theorem foldl_ifi_dirs (l : List (String × List Nat)) (fs : FS) :
    ((l.foldl (fun s kv => install_file_inner s kv.1 kv.2) fs)).dirs
      = fs.dirs := by
  induction l generalizing fs with
  | nil => rfl
  | cons kv t ih => rw [List.foldl_cons, ih, install_file_inner_dirs]

theorem foldl_ifi_exists_mono (l : List (String × List Nat)) (fs : FS)
    (q : String) (h : fsExists fs q = true) :
    fsExists ((l.foldl (fun s kv => install_file_inner s kv.1 kv.2) fs)) q
      = true := by
  induction l generalizing fs with
  | nil => exact h
  | cons kv t ih =>
    rw [List.foldl_cons]
    exact ih _ (fsExists_install_file_inner_mono fs kv.1 kv.2 q h)

theorem foldl_ifi_alook_of_exists (l : List (String × List Nat)) (fs : FS)
    (p : String) (h : fsExists fs p = true) :
    alook ((l.foldl (fun s kv => install_file_inner s kv.1 kv.2) fs)).files p
      = alook fs.files p := by
  induction l generalizing fs with
  | nil => rfl
  | cons kv t ih =>
    rw [List.foldl_cons, ih _ (fsExists_install_file_inner_mono fs kv.1 kv.2 p h)]
    by_cases hq : kv.1 = p
    · rw [hq, install_file_inner_of_exists fs p kv.2 h]
    · exact install_file_inner_alook_ne fs kv.1 p kv.2 fun hq2 => hq hq2.symm

theorem foldl_ifi_alook_ne (l : List (String × List Nat)) (fs : FS)
    (p : String) (hl : ∀ kv ∈ l, kv.1 ≠ p) :
    alook ((l.foldl (fun s kv => install_file_inner s kv.1 kv.2) fs)).files p
      = alook fs.files p := by
  induction l generalizing fs with
  | nil => rfl
  | cons kv t ih =>
    rw [List.foldl_cons, ih _ (fun kv2 h2 => hl kv2 (List.mem_cons_of_mem kv h2))]
    exact install_file_inner_alook_ne fs kv.1 p kv.2
      fun hq => (hl kv (List.mem_cons_self kv t)) hq.symm

/-- C5: the manifest-install step never overwrites.  First: a
destination that exists is left completely untouched by
`install_file_inner` (whatever the asset bytes).  Second: through a
whole `install_beyond` call, the content of any pre-existing path is
unchanged.  Third: running `install_beyond` twice leaves the state of
the first run intact (the second run stops at the existing symlink). -/
theorem claim_C5_manifest_no_overwrite :
    (∀ (fs : FS) (p : String) (b : List Nat),
        fsExists fs p = true → install_file_inner fs p b = fs)
    ∧ (∀ (A : Assets) (fs : FS) (p : String), fsExists fs p = true →
        alook ((install_beyond A fs).2).files p = alook fs.files p)
    ∧ (∀ (A : Assets) (fs : FS),
        (install_beyond A (install_beyond A fs).2).2 = (install_beyond A fs).2) := by
  refine ⟨install_file_inner_of_exists, ?_, ?_⟩
  · intro A fs p h
    unfold install_beyond
    cases hs : symlinkCreate fs "/usr/bin/vscode" "/usr/lib/vscode/code" with
    | error e => rfl
    | ok fs1 =>
      unfold symlinkCreate at hs
      split at hs
      · exact absurd hs (by simp)
      · rw [Except.ok.injEq] at hs
        subst hs
        have hex1 : fsExists { fs with links := ("/usr/bin/vscode", "/usr/lib/vscode/code") :: fs.links } p = true := by
          simp only [fsExists, alook] at h ⊢
          rcases Bool.or_eq_true_iff.mp h with h1 | h2
          · simp [h1]
          · rcases Bool.or_eq_true_iff.mp h2 with h3 | h4
            · simp [h3]
            · split <;> simp [h4]
        dsimp only
        rw [foldl_ifi_alook_of_exists _ _ _ (foldl_cda_exists_mono _ _ _ hex1),
          foldl_cda_files]
  · intro A fs
    unfold install_beyond
    cases hs : symlinkCreate fs "/usr/bin/vscode" "/usr/lib/vscode/code" with
    | error e =>
      have hex : fsExists fs "/usr/bin/vscode" = true := by
        unfold symlinkCreate at hs
        split at hs
        · assumption
        · exact absurd hs (by simp)
      simp only [symlinkCreate, hex, if_true]
    | ok fs1 =>
      have hlink : alook fs1.links "/usr/bin/vscode"
          = some "/usr/lib/vscode/code" := by
        unfold symlinkCreate at hs
        split at hs
        · exact absurd hs (by simp)
        · rw [Except.ok.injEq] at hs
          subst hs
          simp [alook]
      dsimp only
      have hex2 : fsExists
          ((PATH_KV A).foldl (fun s kv => install_file_inner s kv.1 kv.2)
            (DIRECTORY_PATH.foldl fsCreateDirAll fs1)) "/usr/bin/vscode"
          = true := by
        simp only [fsExists, foldl_ifi_links, foldl_cda_links, hlink,
          Option.isSome_some, Bool.or_true]
      simp only [symlinkCreate, hex2, if_true]

/-! ## Helper lemmas: rename and the install chain -/

theorem fsRename_pres_absent (fs g : FS) (src dst q : String)
    (h : fsRename fs src dst = Except.ok g) (hq : absentF fs q) (hd : dst ≠ q)
    (ha : ∀ x : String, ¬ (dst ++ x = q)) : absentF g q := by
  unfold fsRename at h
  split at h
  · rw [Except.ok.injEq] at h
    subst h
    have hren : ∀ k, k ≠ q → renPath src dst k ≠ q :=
      fun k hk => renPath_ne src dst q k hd ha hk
    refine ⟨?_, ?_, ?_⟩ <;> dsimp only
    · exact alook_map_ren_none _ _ _ hq.1 hren
    · exact alook_map_ren_none _ _ _ hq.2.1 hren
    · exact dcontains_map_ren_none _ _ _ hq.2.2 hren
  · exact absurd h (by simp)

theorem dstApp_ne_marker (x : String) :
    ¬ ("/usr/lib/vscode" ++ x = markerPath) :=
  app_ne_of_ne_at _ x _ 1 (by decide) (by decide)

theorem dstApp_ne_manifest :
    ∀ p ∈ MANIFEST_PATHS, ∀ x : String, ¬ ("/usr/lib/vscode" ++ x = p) := by
  intro p hp x
  simp only [MANIFEST_PATHS, List.mem_cons, List.not_mem_nil, or_false] at hp
  rcases hp with rfl | rfl | rfl | rfl | rfl <;>
    exact app_ne_of_ne_at _ x _ 5 (by decide) (by decide)

theorem ifi_pres_absent_ne (fs : FS) (p q : String) (b : List Nat)
    (hne : q ≠ p) (hq : absentF fs q) :
    absentF (install_file_inner fs p b) q := by
  refine ⟨?_, ?_, ?_⟩
  · rw [install_file_inner_alook_ne fs p q b hne]; exact hq.1
  · rw [install_file_inner_links]; exact hq.2.1
  · rw [install_file_inner_dirs]; exact hq.2.2

theorem foldl_ifi_pres_absent (l : List (String × List Nat)) (fs : FS)
    (q : String) (hl : ∀ kv ∈ l, kv.1 ≠ q) (hq : absentF fs q) :
    absentF ((l.foldl (fun s kv => install_file_inner s kv.1 kv.2) fs)) q := by
  induction l generalizing fs with
  | nil => exact hq
  | cons kv t ih =>
    rw [List.foldl_cons]
    exact ih _ (fun kv2 h2 => hl kv2 (List.mem_cons_of_mem kv h2))
      (ifi_pres_absent_ne fs kv.1 q kv.2
        (fun hq2 => (hl kv (List.mem_cons_self kv t)) hq2.symm) hq)

theorem cda_pres_absent (fs : FS) (d q : String) (hne : q ≠ d)
    (hq : absentF fs q) : absentF (fsCreateDirAll fs d) q := by
  refine ⟨?_, ?_, ?_⟩
  · rw [fsCreateDirAll_files]; exact hq.1
  · rw [fsCreateDirAll_links]; exact hq.2.1
  · rw [dcontains_fsCreateDirAll_ne fs d q hne]; exact hq.2.2

theorem foldl_cda_pres_absent (ds : List String) (fs : FS) (q : String)
    (hds : ∀ d ∈ ds, d ≠ q) (hq : absentF fs q) :
    absentF (ds.foldl fsCreateDirAll fs) q := by
  induction ds generalizing fs with
  | nil => exact hq
  | cons d t ih =>
    rw [List.foldl_cons]
    exact ih _ (fun d2 h2 => hds d2 (List.mem_cons_of_mem d h2))
      (cda_pres_absent fs d q
        (fun hq2 => (hds d (List.mem_cons_self d t)) hq2.symm) hq)

theorem symlink_pres_absent_ne (fs fs1 : FS) (p t q : String)
    (h : symlinkCreate fs p t = Except.ok fs1) (hne : p ≠ q)
    (hq : absentF fs q) : absentF fs1 q := by
  unfold symlinkCreate at h
  split at h
  · exact absurd h (by simp)
  · rw [Except.ok.injEq] at h
    subst h
    refine ⟨hq.1, ?_, hq.2.2⟩
    simp only [alook, hne, if_false]
    exact hq.2.1

/-- Writing every entry of a key-distinct list into locations that are
all free puts exactly the given bytes at each key. -/
theorem foldl_ifi_write_all (l : List (String × List Nat)) (fs : FS)
    (hnodup : (l.map Prod.fst).Nodup)
    (habs : ∀ kv ∈ l, absentF fs kv.1) :
    ∀ kv ∈ l,
      alook ((l.foldl (fun s kv => install_file_inner s kv.1 kv.2) fs)).files
        kv.1 = some kv.2 := by
  induction l generalizing fs with
  | nil => intro kv hkv; cases hkv
  | cons kv0 t ih =>
    rw [List.map_cons, List.nodup_cons] at hnodup
    intro kv hkv
    rw [List.foldl_cons]
    cases hkv with
    | head =>
      have hfree : fsExists fs kv0.1 = false :=
        (fsExists_false_iff _ _).mpr (habs kv0 (List.mem_cons_self kv0 t))
      rw [foldl_ifi_alook_ne t _ kv0.1 ?hne]
      · exact install_file_inner_self fs kv0.1 kv0.2 hfree
      case hne =>
        intro kv2 h2 hq
        exact hnodup.1 (hq ▸ List.mem_map_of_mem Prod.fst h2)
    | tail _ hmem =>
      apply ih _ hnodup.2 ?habs2 kv hmem
      case habs2 =>
        intro kv2 h2
        apply ifi_pres_absent_ne
        · intro hq
          exact hnodup.1 (hq ▸ List.mem_map_of_mem Prod.fst h2)
        · exact habs kv2 (List.mem_cons_of_mem kv0 h2)

theorem PATH_KV_fst_mem (A : Assets) (kv : String × List Nat)
    (h : kv ∈ PATH_KV A) : kv.1 ∈ MANIFEST_PATHS := by
  have hm : kv.1 ∈ (PATH_KV A).map Prod.fst := List.mem_map_of_mem Prod.fst h
  simpa [PATH_KV, MANIFEST_PATHS] using hm

theorem dirs_ne_manifest : ∀ p ∈ MANIFEST_PATHS, ∀ d ∈ DIRECTORY_PATH, d ≠ p := by
  decide

theorem bin_ne_manifest : ∀ p ∈ MANIFEST_PATHS, "/usr/bin/vscode" ≠ p := by decide

theorem dst_ne_manifest : ∀ p ∈ MANIFEST_PATHS, "/usr/lib/vscode" ≠ p := by decide

theorem manifest_ne_marker : ∀ p ∈ MANIFEST_PATHS, p ≠ markerPath := by decide

theorem install_beyond_ok_elim (A : Assets) (fs g : FS) (u : Unit)
    (h : install_beyond A fs = (Except.ok u, g)) :
    ∃ fs1, symlinkCreate fs "/usr/bin/vscode" "/usr/lib/vscode/code" = Except.ok fs1
      ∧ g = (PATH_KV A).foldl (fun s kv => install_file_inner s kv.1 kv.2)
          (DIRECTORY_PATH.foldl fsCreateDirAll fs1) := by
  unfold install_beyond at h
  split at h
  · exact absurd h (by simp)
  rename_i fs1 hs
  rw [Prod.mk.injEq] at h
  exact ⟨fs1, hs, h.2.symm⟩

theorem install_beyond_files_none (A : Assets) (fs g : FS) (u : Unit) (q : String)
    (h : install_beyond A fs = (Except.ok u, g))
    (hq : alook fs.files q = none)
    (hman : ∀ p ∈ MANIFEST_PATHS, p ≠ q) : alook g.files q = none := by
  obtain ⟨fs1, hs, rfl⟩ := install_beyond_ok_elim A fs g u h
  have hfs1 : fs1.files = fs.files := by
    unfold symlinkCreate at hs
    split at hs
    · exact absurd hs (by simp)
    · rw [Except.ok.injEq] at hs; subst hs; rfl
  rw [foldl_ifi_alook_ne _ _ _ ?hk, foldl_cda_files, hfs1]
  · exact hq
  case hk =>
    intro kv hkv
    exact hman kv.1 (PATH_KV_fst_mem A kv hkv)

theorem install_beyond_manifest (A : Assets) (fs g : FS) (u : Unit)
    (h : install_beyond A fs = (Except.ok u, g))
    (habs : ∀ p ∈ MANIFEST_PATHS, absentF fs p) :
    ∀ kv ∈ PATH_KV A, alook g.files kv.1 = some kv.2 := by
  obtain ⟨fs1, hs, rfl⟩ := install_beyond_ok_elim A fs g u h
  apply foldl_ifi_write_all
  · have hfst : (PATH_KV A).map Prod.fst = MANIFEST_PATHS := by
      simp [PATH_KV, MANIFEST_PATHS]
    rw [hfst]
    decide
  · intro kv hkv
    have hp := PATH_KV_fst_mem A kv hkv
    apply foldl_cda_pres_absent
    · exact fun d hd => dirs_ne_manifest kv.1 hp d hd
    · exact symlink_pres_absent_ne fs fs1 _ _ _ hs (bin_ne_manifest kv.1 hp)
        (habs kv.1 hp)

theorem install_ok_elim (A : Assets) (fs : FS) (a : Archive) (tg : String)
    (latest : List Nat) (g : FS) (h : install A fs a tg latest = Except.ok g) :
    ∃ fs2 fs3 fs4,
      remove_vscode (unpack fs a) = Except.ok fs2
      ∧ fsRename fs2 ("/usr/lib/VSCode-" ++ tg) "/usr/lib/vscode" = Except.ok fs3
      ∧ install_beyond A fs3 = (Except.ok (), fs4)
      ∧ g = fsWriteFile fs4 markerPath
          (writeAt0NoTrunc (alook fs4.files markerPath) latest) := by
  unfold install at h
  split at h
  · exact absurd h (by simp)
  rename_i fs2 h2
  split at h
  · exact absurd h (by simp)
  rename_i fs3 h3
  split at h
  · exact absurd h (by simp)
  rename_i u fs4 h4
  rw [Except.ok.injEq] at h
  refine ⟨fs2, fs3, fs4, h2, h3, ?_, h.symm⟩
  cases u
  exact h4

theorem install_ok_marker (A : Assets) (fs : FS) (a : Archive) (tg : String)
    (latest : List Nat) (g : FS) (h : install A fs a tg latest = Except.ok g) :
    alook g.files markerPath = some latest := by
  obtain ⟨fs2, fs3, fs4, h2, h3, h4, rfl⟩ := install_ok_elim A fs a tg latest g h
  have habs2 : absentF fs2 markerPath := (remove_vscode_ok_post _ _ h2).2.2.2
  have habs3 : absentF fs3 markerPath :=
    fsRename_pres_absent _ _ _ _ _ h3 habs2 (by decide) dstApp_ne_marker
  have h4n : alook fs4.files markerPath = none :=
    install_beyond_files_none A fs3 fs4 () markerPath h4 habs3.1 manifest_ne_marker
  rw [fsWriteFile_alook_self, h4n]
  rfl

theorem install_ok_manifest (A : Assets) (fs : FS) (a : Archive) (tg : String)
    (latest : List Nat) (g : FS) (h : install A fs a tg latest = Except.ok g) :
    ∀ kv ∈ PATH_KV A, alook g.files kv.1 = some kv.2 := by
  obtain ⟨fs2, fs3, fs4, h2, h3, h4, rfl⟩ := install_ok_elim A fs a tg latest g h
  intro kv hkv
  have hp := PATH_KV_fst_mem A kv hkv
  have habs3 : ∀ p ∈ MANIFEST_PATHS, absentF fs3 p := by
    intro p hp2
    exact fsRename_pres_absent _ _ _ _ _ h3
      ((remove_vscode_ok_post _ _ h2).1 p hp2) (dst_ne_manifest p hp2)
      (dstApp_ne_manifest p hp2)
  have hcontent := install_beyond_manifest A fs3 fs4 () h4 habs3 kv hkv
  rw [fsWriteFile_alook_ne _ _ _ _ (manifest_ne_marker kv.1 hp)]
  exact hcontent

/-- C4 counterexample: with a directory occupying a manifest file
destination, the existence guard passes but `remove_file` fails on the
directory, so `remove_vscode` errors — and since this first guarded
deletion fails before any mutation, a second call in a row sees the
same state and errors identically: it is not the case that for every
filesystem state the second of two calls succeeds with no error. -/
theorem claim_C4_counterexample : (remove_vscode fsDir).toOption = none := by
  decide

/-- C4 as amended: `remove_vscode` is idempotent whenever a call can
succeed at all.  After any successful run, running it again succeeds
and returns the same filesystem
(`Except.bind (remove_vscode fs) remove_vscode = remove_vscode fs`,
which on the success path says the second call is `ok` with an
unchanged state; on a failed first call both sides are that error).
With nothing installed (`cleanB`: every guarded path absent), a single
call is already a successful no-op. -/
theorem claim_C4_remove_idempotent :
    (∀ fs : FS, Except.bind (remove_vscode fs) remove_vscode = remove_vscode fs)
    ∧ (∀ fs : FS, cleanB fs = true → remove_vscode fs = Except.ok fs) := by
  constructor
  · intro fs
    cases h : remove_vscode fs with
    | error e => rfl
    | ok g =>
      show remove_vscode g = Except.ok g
      obtain ⟨hman, hdir, hbin, hmark⟩ := remove_vscode_ok_post fs g h
      apply remove_vscode_of_clean
      have e1 : fsExists g "/usr/share/appdata/code.appdata.xml" = false :=
        (fsExists_false_iff _ _).mpr (hman _ (by simp [MANIFEST_PATHS]))
      have e2 : fsExists g "/usr/share/applications/code.desktop" = false :=
        (fsExists_false_iff _ _).mpr (hman _ (by simp [MANIFEST_PATHS]))
      have e3 : fsExists g "/usr/share/applications/code-url-handler.desktop" = false :=
        (fsExists_false_iff _ _).mpr (hman _ (by simp [MANIFEST_PATHS]))
      have e4 : fsExists g "/usr/share/mine/packages/code-workspace.xml" = false :=
        (fsExists_false_iff _ _).mpr (hman _ (by simp [MANIFEST_PATHS]))
      have e5 : fsExists g "/usr/share/pixmaps/com.visualstudio.code.png" = false :=
        (fsExists_false_iff _ _).mpr (hman _ (by simp [MANIFEST_PATHS]))
      have e6 : fsExists g "/usr/lib/vscode" = false :=
        (fsExists_false_iff _ _).mpr hdir
      have e7 : fsExists g "/usr/bin/vscode" = false :=
        (fsExists_false_iff _ _).mpr hbin
      have e8 : fsExists g markerPath = false :=
        (fsExists_false_iff _ _).mpr hmark
      simp [cleanB, MANIFEST_PATHS, e1, e2, e3, e4, e5, e6, e7, e8]
  · exact remove_vscode_of_clean

/-- C4 witness: on the empty filesystem (nothing installed),
`remove_vscode` succeeds as a no-op. -/
theorem claim_C4_witness : remove_vscode fs0 = Except.ok fs0 :=
  claim_C4_remove_idempotent.2 fs0 (by decide)

/-- C5 witness: an occupied manifest destination is untouched even when
the asset bytes differ from its content. -/
theorem claim_C5_witness :
    install_file_inner fsDesk "/usr/share/applications/code.desktop"
      (strBytes "different") = fsDesk :=
  claim_C5_manifest_no_overwrite.1 fsDesk
    "/usr/share/applications/code.desktop" (strBytes "different") (by decide)

/-- C2 counterexample: when the remote returns the empty version
string, `install` succeeds (writing a zero-length marker), but the
subsequent `get_current_version` fails on the empty file, so the
round-trip does not return the fetched value. -/
theorem claim_C2_counterexample :
    (install A0 fs0 arch0 "linux-x64" []).isOk = true
    ∧ (install A0 fs0 arch0 "linux-x64" []).toOption.map
        (fun g => (get_current_version g).isOk) = some false := by
  decide

/-- C2 as amended: provided the version string fetched during `install`
is non-empty (it is a Rust `String`, hence valid UTF-8), a successful
`install` is followed by `get_current_version` returning exactly that
string after the same newline/space stripping. -/
theorem claim_C2_roundtrip :
    ∀ (A : Assets) (fs : FS) (a : Archive) (tg : String) (latest : List Nat),
      utf8Valid latest = true → latest ≠ [] →
      (install A fs a tg latest).isOk = true →
      (install A fs a tg latest).toOption.map get_current_version
        = some (Except.ok (stripWs latest)) := by
  intro A fs a tg latest hv hne hok
  cases hi : install A fs a tg latest with
  | error e => rw [hi] at hok; exact absurd hok (by simp [Except.isOk, Except.toBool])
  | ok g =>
    have hm := install_ok_marker A fs a tg latest g hi
    simp [Except.toOption, get_current_version, hm, hne, hv]

/-- C2 witness: a concrete successful install with remote version
`1.2.3` round-trips through the marker file. -/
theorem claim_C2_witness :
    (install A0 fs0 arch0 "linux-x64" v123).toOption.map get_current_version
      = some (Except.ok (stripWs v123)) :=
  claim_C2_roundtrip A0 fs0 arch0 "linux-x64" v123 (by decide) (by decide)
    (by decide)

/-- C3 counterexample: with a prior marker content (9 bytes) longer
than the new version string (3 bytes), a successful `install` leaves
the marker holding exactly the new version — not the new version
followed by the trailing bytes of the old content, because `install`
runs `remove_vscode` (which deletes the marker file) before the
non-truncating write. -/
theorem claim_C3_counterexample :
    (install A0 fsLong arch0 "linux-x64" (strBytes "1.0")).toOption.map
        (fun g => alook g.files markerPath) = some (some (strBytes "1.0"))
    ∧ (strBytes "1.0").length < (strBytes "9.9.9.9.9").length
    ∧ ¬ (strBytes "1.0"
          = strBytes "1.0"
            ++ (strBytes "9.9.9.9.9").drop (strBytes "1.0").length) := by
  decide

/-- C3 as amended: `install` does open the marker path with a
read/write/create handle that does not truncate, seeking to offset
zero (first conjunct: on an existing file that write keeps trailing
bytes of longer prior content); but since `install`'s removal pass has
already deleted the marker file, the write lands on a freshly created
empty file, and after every successful `install` the marker content is
exactly the fetched version string with no residue of prior content. -/
theorem claim_C3_marker_write :
    (∀ (old new : List Nat), writeAt0NoTrunc (some old) new
        = new ++ old.drop new.length)
    ∧ (∀ (A : Assets) (fs : FS) (a : Archive) (tg : String) (latest : List Nat),
        (install A fs a tg latest).isOk = true →
        (install A fs a tg latest).toOption.map
            (fun g => alook g.files markerPath) = some (some latest)) := by
  constructor
  · intro old new; rfl
  · intro A fs a tg latest hok
    cases hi : install A fs a tg latest with
    | error e => rw [hi] at hok; exact absurd hok (by simp [Except.isOk, Except.toBool])
    | ok g =>
      have hm := install_ok_marker A fs a tg latest g hi
      simp [Except.toOption, hm]

/-- C3 witness: concrete install over a longer prior marker ends with
exactly the new version string in the marker. -/
theorem claim_C3_witness :
    (install A0 fsLong arch0 "linux-x64" (strBytes "2.0")).toOption.map
        (fun g => alook g.files markerPath) = some (some (strBytes "2.0")) :=
  claim_C3_marker_write.2 A0 fsLong arch0 "linux-x64" (strBytes "2.0")
    (by decide)

/-- C9: `install` runs the full removal pass (`remove_vscode`: manifest
files, install directory, binary symlink, version marker) between
unpacking and renaming — see the definition of `install` — and as a
consequence, after every successful `install`, each manifest
destination holds exactly this build's asset bytes, regardless of the
initial filesystem. -/
theorem claim_C9_install_manifest :
    ∀ (A : Assets) (fs : FS) (a : Archive) (tg : String) (latest : List Nat),
      (install A fs a tg latest).isOk = true →
      ∀ kv ∈ PATH_KV A,
        (install A fs a tg latest).toOption.map (fun g => alook g.files kv.1)
          = some (some kv.2) := by
  intro A fs a tg latest hok kv hkv
  cases hi : install A fs a tg latest with
  | error e => rw [hi] at hok; exact absurd hok (by simp [Except.isOk, Except.toBool])
  | ok g =>
    have hm := install_ok_manifest A fs a tg latest g hi kv hkv
    simp [Except.toOption, hm]

/-- C9 witness: a concrete install on the empty filesystem puts the
appdata asset bytes at its manifest destination. -/
theorem claim_C9_witness :
    (install A0 fs0 arch0 "linux-x64" v123).toOption.map
        (fun g => alook g.files "/usr/share/appdata/code.appdata.xml")
      = some (some A0.codeAppdataXml) :=
  claim_C9_install_manifest A0 fs0 arch0 "linux-x64" v123 (by decide)
    ("/usr/share/appdata/code.appdata.xml", A0.codeAppdataXml) (by decide)

/-! ## VersionOracle claims -/

theorem utf8Valid_cons_10 (t : List Nat) : utf8Valid (10 :: t) = utf8Valid t :=
  rfl

theorem utf8Valid_cons_32 (t : List Nat) : utf8Valid (32 :: t) = utf8Valid t :=
  rfl

theorem utf8Valid_ws (b : List Nat) (h : ∀ c ∈ b, c = 10 ∨ c = 32) :
    utf8Valid b = true := by
  induction b with
  | nil => rfl
  | cons c t ih =>
    have ht := ih fun c2 h2 => h c2 (List.mem_cons_of_mem c h2)
    rcases h c (List.mem_cons_self c t) with rfl | rfl
    · rw [utf8Valid_cons_10, ht]
    · rw [utf8Valid_cons_32, ht]

theorem stripWs_ws (b : List Nat) (h : ∀ c ∈ b, c = 10 ∨ c = 32) :
    stripWs b = [] := by
  induction b with
  | nil => rfl
  | cons c t ih =>
    have ht := ih fun c2 h2 => h c2 (List.mem_cons_of_mem c h2)
    rcases h c (List.mem_cons_self c t) with rfl | rfl
    · rw [show stripWs (10 :: t) = stripWs t from by simp [stripWs]]
      exact ht
    · rw [show stripWs (32 :: t) = stripWs t from by simp [stripWs]]
      exact ht

/-- C1: with a readable, non-empty, well-formed local marker,
`update_checker` reports up to date exactly when the stripped local
version equals the remote `latest_version` byte-for-byte; otherwise the
bail result carries the (stripped) local and the remote string. -/
theorem claim_C1_check_up_to_date :
    ∀ (fs : FS) (latest b : List Nat),
      alook fs.files markerPath = some b → b ≠ [] → utf8Valid b = true →
      (((update_checker fs latest).1 = Except.ok ()) ↔ stripWs b = latest)
      ∧ (stripWs b ≠ latest →
          (update_checker fs latest).1 = Except.error (stripWs b, latest)) := by
  intro fs latest b hb hne hv
  have hg : get_current_version fs = Except.ok (stripWs b) := by
    simp [get_current_version, hb, hne, hv]
  constructor
  · constructor
    · intro h
      by_contra hsl
      simp [update_checker, hg, hsl] at h
    · intro h
      simp [update_checker, hg, h]
  · intro hsl
    simp [update_checker, hg, hsl]

/-- C1 witness: local marker `1.2.3` plus newline versus remote
`1.2.3`: equal after stripping, hence up to date. -/
theorem claim_C1_witness :
    (((update_checker fsMark v123).1 = Except.ok ())
        ↔ stripWs (strBytes "1.2.3" ++ [10]) = v123)
    ∧ (stripWs (strBytes "1.2.3" ++ [10]) ≠ v123 →
        (update_checker fsMark v123).1
          = Except.error (stripWs (strBytes "1.2.3" ++ [10]), v123)) :=
  claim_C1_check_up_to_date fsMark v123 (strBytes "1.2.3" ++ [10]) (by decide)
    (by decide) (by decide)

/-- C6: with no marker file and remote version `1.2.3`,
`update_checker` creates the state directory, creates the marker file
holding the sentinel `None`, and reports the mismatch
`("None", "1.2.3")`. -/
theorem claim_C6_first_run :
    ∀ fs : FS, alook fs.files markerPath = none →
      (update_checker fs v123).1 = Except.error (noneBytes, v123)
      ∧ dcontains (update_checker fs v123).2.dirs CURRENT_VERSION_DIRECTORY = true
      ∧ alook (update_checker fs v123).2.files markerPath = some noneBytes := by
  intro fs h
  have hg : get_current_version fs = Except.error "No such file or directory" := by
    simp [get_current_version, h]
  have hnv : noneBytes ≠ v123 := by decide
  refine ⟨?_, ?_, ?_⟩
  · simp [update_checker, hg, hnv]
  · simp [update_checker, hg, fsWriteFile_dirs, dcontains_fsCreateDirAll_self]
  · simp [update_checker, hg, fsWriteFile_alook_self]

/-- C6 witness: the empty filesystem has no marker file. -/
theorem claim_C6_witness :
    (update_checker fs0 v123).1 = Except.error (noneBytes, v123)
    ∧ dcontains (update_checker fs0 v123).2.dirs CURRENT_VERSION_DIRECTORY = true
    ∧ alook (update_checker fs0 v123).2.files markerPath = some noneBytes :=
  claim_C6_first_run fs0 (by decide)

/-- C7: `get_current_version` fails on an absent marker file and on an
empty one; on success it returns the content with every newline and
space byte removed (a literal removal, not a trim); a marker of only
whitespace bytes is accepted as non-empty and strips to the empty
string. -/
theorem claim_C7_read_local_version :
    ∀ (fs : FS) (b : List Nat),
      (alook fs.files markerPath = none →
        ∃ e, get_current_version fs = Except.error e)
      ∧ (alook fs.files markerPath = some [] →
          ∃ e, get_current_version fs = Except.error e)
      ∧ (alook fs.files markerPath = some b → b ≠ [] → utf8Valid b = true →
          get_current_version fs = Except.ok (stripWs b))
      ∧ (alook fs.files markerPath = some b → b ≠ [] →
          (∀ c ∈ b, c = 10 ∨ c = 32) →
          get_current_version fs = Except.ok [] ∧ stripWs b = []) := by
  intro fs b
  refine ⟨?_, ?_, ?_, ?_⟩
  · intro h
    refine ⟨"No such file or directory", ?_⟩
    simp [get_current_version, h]
  · intro h
    refine ⟨"Failed to detect Visual Studio Code version for the current installation!", ?_⟩
    simp [get_current_version, h]
  · intro h hne hv
    simp [get_current_version, h, hne, hv]
  · intro h hne hws
    have hv := utf8Valid_ws b hws
    have hs := stripWs_ws b hws
    refine ⟨?_, hs⟩
    rw [show ([] : List Nat) = stripWs b from hs.symm]
    simp [get_current_version, h, hne, hv]

/-- C7 witness: a marker holding only `\n`, space, `\n` is read
successfully and strips to the empty version string. -/
theorem claim_C7_witness :
    get_current_version fsWs = Except.ok [] ∧ stripWs [10, 32, 10] = [] :=
  (claim_C7_read_local_version fsWs [10, 32, 10]).2.2.2 (by decide) (by decide)
    (by decide)

/-- C8: an architecture outside x86_64 and aarch64 fails with the
unsupported-architecture error before any network request is recorded;
the two supported ones issue exactly one request to the download URL
with the resolved tag and return the full body together with that
tag. -/
theorem claim_C8_download_arch :
    ∀ (archv : String) (net : Net),
      (archv = "x86_64" →
        download_vscode archv net =
          (Except.ok (net.get (DOWNLOAD_VSCODE_URL ++ "linux-x64"), "linux-x64"),
           [DOWNLOAD_VSCODE_URL ++ "linux-x64"]))
      ∧ (archv = "aarch64" →
          download_vscode archv net =
            (Except.ok (net.get (DOWNLOAD_VSCODE_URL ++ "linux-arm64"),
              "linux-arm64"),
             [DOWNLOAD_VSCODE_URL ++ "linux-arm64"]))
      ∧ (archv ≠ "x86_64" → archv ≠ "aarch64" →
          download_vscode archv net =
            (Except.error "Unfortunately, Visual Studio Code does not support your device's architecture.",
             [])) := by
  intro archv net
  refine ⟨?_, ?_, ?_⟩
  · intro h; subst h; simp [download_vscode]
  · intro h; subst h; simp [download_vscode]
  · intro h1 h2; simp [download_vscode, h1, h2]

/-- C8 witness: riscv64 is rejected with no network request. -/
theorem claim_C8_witness :
    download_vscode "riscv64" net0 =
      (Except.error "Unfortunately, Visual Studio Code does not support your device's architecture.",
       []) :=
  (claim_C8_download_arch "riscv64" net0).2.2 (by decide) (by decide)

/-- C10: a marker that exists, is non-empty, and is not valid UTF-8
makes `get_current_version` fail; `update_checker` then takes the
first-run path, truncating the corrupted marker to the sentinel `None`
(`File::create`) and comparing `None` against the remote version — the
corruption is silently reset, never surfaced as a distinct error. -/
theorem claim_C10_corrupt_marker :
    ∀ (fs : FS) (latest b : List Nat),
      alook fs.files markerPath = some b → b ≠ [] → utf8Valid b = false →
      (∃ e, get_current_version fs = Except.error e)
      ∧ alook (update_checker fs latest).2.files markerPath = some noneBytes
      ∧ (update_checker fs latest).1
          = (if noneBytes = latest then Except.ok ()
             else Except.error (noneBytes, latest)) := by
  intro fs latest b hb hne hv
  have hg : get_current_version fs = Except.error "invalid utf-8 sequence" := by
    simp [get_current_version, hb, hne, hv]
  refine ⟨⟨_, hg⟩, ?_, ?_⟩
  · simp [update_checker, hg, fsWriteFile_alook_self]
  · simp [update_checker, hg]

/-- C10 witness: a marker holding the single byte `0xFF`. -/
theorem claim_C10_witness :
    (∃ e, get_current_version fsBad = Except.error e)
    ∧ alook (update_checker fsBad v123).2.files markerPath = some noneBytes
    ∧ (update_checker fsBad v123).1
        = (if noneBytes = v123 then Except.ok ()
           else Except.error (noneBytes, v123)) :=
  claim_C10_corrupt_marker fsBad v123 [255] (by decide) (by decide) (by decide)

end Vsdown
